import Mathlib

/-!
Shallow embedding of the STT load balancer of `scripty`
(`src/scripty_stt/src/load_balancer.rs`) and proofs about its selection
algorithm, connection opening, and heartbeat handling.

The registry (`DashMap<usize, LoadBalancedStream>` with contiguous keys
`0 .. len-1`) is modelled as a `List Worker`; the atomic cursor
`current_index` is threaded explicitly as state.  The retry budget
`NUM_STT_SERVICE_TRIES` is declared outside the sources available here, so
it is kept as an explicit parameter `TRIES` of the model.
-/

deriving instance DecidableEq for Except

namespace Scripty

/-- Health and capability flags of one `LoadBalancedStream`
(fields `can_overload`, `is_overloaded`, `is_in_error`). -/
structure Worker where
  can_overload : Bool
  is_overloaded : Bool
  is_in_error : Bool
  deriving DecidableEq, Repr

/-- The variants of `ModelError` relevant to the load balancer:
`NoAvailableServers`, and `Io` wrapping an I/O error message. -/
inductive ModelError where
  | NoAvailableServers : ModelError
  | Io : String → ModelError
  deriving DecidableEq, Repr

/-- The transcription stream payload is opaque to the load balancer. -/
abbrev SttStream := Unit

/-- `LoadBalancer`: the atomic cursor `current_index` plus the worker
registry (keys `0 .. workers.length - 1`). -/
structure LoadBalancer where
  current_index : Nat
  workers : List Worker
  deriving DecidableEq, Repr

/-- `LoadBalancer::get_next_worker_idx`: `fetch_update` returns the old
cursor value and stores `0` when the old value equals `workers.len()`,
otherwise old value plus one. -/
def get_next_worker_idx (lb : LoadBalancer) : Nat × LoadBalancer :=
  let x := lb.current_index
  let x' := if x = lb.workers.length then 0 else x + 1
  (x, { lb with current_index := x' })

/-- The selection condition of `find_worker` (line 83-84):
`(allow_overload && worker.can_overload) || !worker.is_overloaded() && !worker.is_in_error()`. -/
def selectCond (allow : Bool) (w : Worker) : Bool :=
  (allow && w.can_overload) || (!w.is_overloaded && !w.is_in_error)

/-- The guard of the `if let Some(worker) = self.workers.get(&idx)` block:
a candidate index is accepted when a worker is registered at it and the
selection condition holds. -/
def candidateOk (lb : LoadBalancer) (idx : Nat) (allow : Bool) : Bool :=
  match lb.workers.get? idx with
  | some w => selectCond allow w
  | none => false

/-- Modelled from the spec: the spec's own wording of the selection
condition, "(`allow_overload` is currently false and the worker is neither
`is_overloaded` nor `is_in_error`) OR (`allow_overload` is true and the
worker's `can_overload` is true)", kept separate so it can be compared with
`selectCond`, which is taken from the source. -/
def specSelectCond (allow : Bool) (w : Worker) : Bool :=
  (!allow && !w.is_overloaded && !w.is_in_error) || (allow && w.can_overload)

/-- One iteration of the `loop` in `find_worker`, as a sum of its three
possible outcomes. -/
inductive StepOut where
  | selected : Nat → StepOut
  | failed : LoadBalancer → StepOut
  | next : LoadBalancer → Nat → Bool → Nat → StepOut
  deriving DecidableEq, Repr

/-- One iteration of the `loop` body of `find_worker`.  The loop counter is
represented downward: `k = TRIES - iter_count`, so the iteration that runs
with `iter_count = TRIES` (the last one, since afterwards
`iter_count > NUM_STT_SERVICE_TRIES`) has `k = 0`.  In order executed:
examine the candidate (select on `candidateOk`), advance the cursor, flip
`allow_overload` when `iter_count > workers.len()`, increment `iter_count`
and fail once it exceeds the budget. -/
def find_worker_step (TRIES : Nat) (lb : LoadBalancer) (idx : Nat) (allow : Bool)
    (k : Nat) : StepOut :=
  if candidateOk lb idx allow then StepOut.selected idx
  else
    match k with
    | 0 => StepOut.failed (get_next_worker_idx lb).2
    | k' + 1 =>
        StepOut.next (get_next_worker_idx lb).2 (get_next_worker_idx lb).1
          (if allow = false ∧ lb.workers.length < TRIES - (k' + 1) then true else allow)
          k'

/-- The `loop` of `find_worker`, iterating `find_worker_step`'s behaviour;
structural recursion on the downward counter `k` (the loop in the source
terminates because `iter_count` strictly increases towards the budget).
Returns the result together with the balancer state (advanced cursor). -/
def fwLoop (TRIES : Nat) : LoadBalancer → Nat → Bool → Nat →
    Except ModelError Nat × LoadBalancer
  | lb, idx, allow, 0 =>
      if candidateOk lb idx allow then (Except.ok idx, lb)
      else (Except.error ModelError.NoAvailableServers, (get_next_worker_idx lb).2)
  | lb, idx, allow, k + 1 =>
      if candidateOk lb idx allow then (Except.ok idx, lb)
      else
        fwLoop TRIES (get_next_worker_idx lb).2 (get_next_worker_idx lb).1
          (if allow = false ∧ lb.workers.length < TRIES - (k + 1) then true else allow) k

/-- `LoadBalancer::find_worker`: obtain the initial candidate from the
cursor, then run the scan loop with `iter_count = 0` (`k = TRIES`) and
`allow_overload = false`. -/
def find_worker (TRIES : Nat) (lb : LoadBalancer) : Except ModelError Nat × LoadBalancer :=
  fwLoop TRIES (get_next_worker_idx lb).2 (get_next_worker_idx lb).1 false TRIES

/-- Number of candidates the scan loop examines (one per loop iteration of
`find_worker`), with the same control flow as `fwLoop`. -/
def fwLoopCount (TRIES : Nat) : LoadBalancer → Nat → Bool → Nat → Nat
  | _, _, _, 0 => 1
  | lb, idx, allow, k + 1 =>
      if candidateOk lb idx allow then 1
      else
        1 + fwLoopCount TRIES (get_next_worker_idx lb).2 (get_next_worker_idx lb).1
          (if allow = false ∧ lb.workers.length < TRIES - (k + 1) then true else allow) k

/-- Number of candidates a whole `find_worker` call examines. -/
def find_worker_count (TRIES : Nat) (lb : LoadBalancer) : Nat :=
  fwLoopCount TRIES (get_next_worker_idx lb).2 (get_next_worker_idx lb).1 false TRIES

/-- The successor function the cursor follows: wrap to `0` from `N`
(the registry length), otherwise add one. -/
def wrapSucc (N x : Nat) : Nat := if x = N then 0 else x + 1

/-- The first worker index a `find_worker` call returns when all workers
are healthy: the cursor value itself, except that the phantom cursor slot
`N` yields worker `0`. -/
def scanStart (lb : LoadBalancer) : Nat :=
  if lb.current_index = lb.workers.length then 0 else lb.current_index

/-- `M` sequential (non-concurrent) `find_worker` calls, returning the list
of results and the final balancer state. -/
def run_calls (TRIES : Nat) : Nat → LoadBalancer → List (Except ModelError Nat) × LoadBalancer
  | 0, lb => ([], lb)
  | M + 1, lb =>
      let p := find_worker TRIES lb
      let q := run_calls TRIES M p.2
      (p.1 :: q.1, q.2)

/-- Whether an `Except` value is an error. -/
def isErrB {α : Type} : Except ModelError α → Bool
  | Except.ok _ => false
  | Except.error _ => true

/-- `LoadBalancedStream::open_connection`.  `streamNew` is the outcome of
the external network call `Stream::new`; the third component records
whether that network call was performed.  On the overload short-circuit,
the call fails before reaching the `Stream::new` line and before the
`is_in_error.store` line, so the worker state is returned unchanged. -/
def open_connection (w : Worker) (streamNew : Except ModelError SttStream) :
    Except ModelError SttStream × Worker × Bool :=
  if !w.can_overload && w.is_overloaded then
    (Except.error (ModelError.Io "remote is overloaded"), w, false)
  else
    (streamNew, { w with is_in_error := isErrB streamNew }, true)

/-- The two health flags the monitor task writes. -/
structure MonitorState where
  is_overloaded : Bool
  is_in_error : Bool
  deriving DecidableEq, Repr

/-- One iteration of the health-monitor loop after a byte `tag` was read
successfully (lines 234-254): clear `is_in_error`; discard the frame unless
the tag is the heartbeat byte `0x07`; then read the f64 utilization
(`payload`, `none` when that secondary read fails, in which case the frame
is discarded) and store `utilization > max_utilization` into
`is_overloaded`.  Utilization values are modelled as rationals. -/
def monitor_step (max_utilization : ℚ) (st : MonitorState) (tag : Nat)
    (payload : Option ℚ) : MonitorState :=
  let st1 : MonitorState := { st with is_in_error := false }
  if tag ≠ 7 then st1
  else
    match payload with
    | none => st1
    | some u => { st1 with is_overloaded := decide (max_utilization < u) }

/-! ### Basic lemmas about the embedded definitions -/

theorem get_next_workers (lb : LoadBalancer) :
    (get_next_worker_idx lb).2.workers = lb.workers := rfl

theorem get_next_spec (lb : LoadBalancer) :
    get_next_worker_idx lb =
      (lb.current_index, ⟨wrapSucc lb.workers.length lb.current_index, lb.workers⟩) := rfl

theorem wrapSucc_le {N x : Nat} (h : x ≤ N) : wrapSucc N x ≤ N := by
  unfold wrapSucc; split <;> omega

theorem selectCond_eq_true_iff {allow : Bool} {w : Worker} :
    selectCond allow w = true ↔
      ((allow = true ∧ w.can_overload = true) ∨
        (w.is_overloaded = false ∧ w.is_in_error = false)) := by
  simp [selectCond]

theorem candidateOk_false_of_bad {lb : LoadBalancer} {idx : Nat} {allow : Bool}
    (h : ∀ w ∈ lb.workers, w.can_overload = false ∧
      (w.is_overloaded = true ∨ w.is_in_error = true)) :
    candidateOk lb idx allow = false := by
  unfold candidateOk
  cases hg : lb.workers.get? idx with
  | none => rfl
  | some w =>
    obtain ⟨h1, h2⟩ := h w (List.get?_mem hg)
    rcases h2 with h2 | h2 <;> simp [selectCond, h1, h2]

/-- Whatever `allow_overload` is, a selected worker tolerates overload or is
neither overloaded nor in error. -/
theorem fwLoop_ok_inv (TRIES : Nat) :
    ∀ (k : Nat) (lb : LoadBalancer) (idx : Nat) (allow : Bool) (i : Nat),
      (fwLoop TRIES lb idx allow k).1 = Except.ok i →
      ∃ w, lb.workers.get? i = some w ∧
        (w.can_overload = true ∨ (w.is_overloaded = false ∧ w.is_in_error = false)) := by
  intro k
  induction k with
  | zero =>
    intro lb idx allow i h
    by_cases hc : candidateOk lb idx allow = true
    · simp [fwLoop, hc] at h
      subst h
      unfold candidateOk at hc
      cases hg : lb.workers.get? idx with
      | none => rw [hg] at hc; exact absurd hc (by simp)
      | some w =>
        rw [hg] at hc
        refine ⟨w, rfl, ?_⟩
        rcases selectCond_eq_true_iff.mp hc with ⟨_, h2⟩ | h2
        · exact Or.inl h2
        · exact Or.inr h2
    · simp [fwLoop, hc] at h
  | succ k ih =>
    intro lb idx allow i h
    by_cases hc : candidateOk lb idx allow = true
    · simp [fwLoop, hc] at h
      subst h
      unfold candidateOk at hc
      cases hg : lb.workers.get? idx with
      | none => rw [hg] at hc; exact absurd hc (by simp)
      | some w =>
        rw [hg] at hc
        refine ⟨w, rfl, ?_⟩
        rcases selectCond_eq_true_iff.mp hc with ⟨_, h2⟩ | h2
        · exact Or.inl h2
        · exact Or.inr h2
    · simp [fwLoop, hc] at h
      exact ih (get_next_worker_idx lb).2 (get_next_worker_idx lb).1 _ _ h

theorem find_worker_ok_inv {TRIES : Nat} {lb : LoadBalancer} {i : Nat}
    (h : (find_worker TRIES lb).1 = Except.ok i) :
    ∃ w, lb.workers.get? i = some w ∧
      (w.can_overload = true ∨ (w.is_overloaded = false ∧ w.is_in_error = false)) :=
  fwLoop_ok_inv TRIES TRIES (get_next_worker_idx lb).2 (get_next_worker_idx lb).1 false i h

/-- All-unselectable registries drive the loop to the failure exit. -/
theorem fwLoop_all_bad (TRIES : Nat) :
    ∀ (k : Nat) (lb : LoadBalancer) (idx : Nat) (allow : Bool),
      (∀ w ∈ lb.workers, w.can_overload = false ∧
        (w.is_overloaded = true ∨ w.is_in_error = true)) →
      (fwLoop TRIES lb idx allow k).1 = Except.error ModelError.NoAvailableServers := by
  intro k
  induction k with
  | zero => intro lb idx allow h; simp [fwLoop, candidateOk_false_of_bad h]
  | succ k ih =>
    intro lb idx allow h
    simp [fwLoop, candidateOk_false_of_bad h]
    exact ih (get_next_worker_idx lb).2 (get_next_worker_idx lb).1 _ h

theorem fwLoopCount_all_bad (TRIES : Nat) :
    ∀ (k : Nat) (lb : LoadBalancer) (idx : Nat) (allow : Bool),
      (∀ w ∈ lb.workers, w.can_overload = false ∧
        (w.is_overloaded = true ∨ w.is_in_error = true)) →
      fwLoopCount TRIES lb idx allow k = k + 1 := by
  intro k
  induction k with
  | zero => intro lb idx allow h; simp [fwLoopCount]
  | succ k ih =>
    intro lb idx allow h
    simp [fwLoopCount, candidateOk_false_of_bad h]
    rw [ih (get_next_worker_idx lb).2 (get_next_worker_idx lb).1 _ h]
    omega

/-- The loop of `find_worker` agrees with iterating `find_worker_step`. -/
theorem fwLoop_eq_step (TRIES : Nat) (lb : LoadBalancer) (idx : Nat) (allow : Bool)
    (k : Nat) :
    fwLoop TRIES lb idx allow k =
      match find_worker_step TRIES lb idx allow k with
      | StepOut.selected i => (Except.ok i, lb)
      | StepOut.failed lb2 => (Except.error ModelError.NoAvailableServers, lb2)
      | StepOut.next lb2 idx2 allow2 k2 => fwLoop TRIES lb2 idx2 allow2 k2 := by
  cases k <;> by_cases hc : candidateOk lb idx allow = true <;>
    simp [fwLoop, find_worker_step, hc]

/-! ### Claim theorems -/

/-- Claim C1 (confirmed): for every registry state, retry budget and cursor
position, `find_worker` never returns the index of a worker that is flagged
overloaded and cannot overload — hence in particular not while another
healthy worker exists. -/
theorem overload_avoidance (TRIES : Nat) (lb : LoadBalancer) (i : Nat) (w : Worker)
    (hw : lb.workers.get? i = some w) (hover : w.is_overloaded = true)
    (hcan : w.can_overload = false) :
    (find_worker TRIES lb).1 ≠ Except.ok i := by
  intro h
  obtain ⟨w', hw', hdisj⟩ := find_worker_ok_inv h
  rw [hw] at hw'
  cases hw'
  rcases hdisj with h1 | ⟨h2, _⟩
  · rw [hcan] at h1; cases h1
  · rw [hover] at h2; cases h2

/-- Witness for C1: a registry holding an overloaded, non-tolerant worker 0
next to a healthy worker 1; selection never returns index 0. -/
theorem overload_avoidance_witness :
    (find_worker 5 ⟨0, [⟨false, true, false⟩, ⟨false, false, false⟩]⟩).1 ≠ Except.ok 0 :=
  overload_avoidance 5 ⟨0, [⟨false, true, false⟩, ⟨false, false, false⟩]⟩ 0
    ⟨false, true, false⟩ rfl rfl rfl

/-- Claim C2, amended (corrected): at a scan step examining a registered
worker, the candidate is selected immediately if and only if
(`allow_overload` is true and the worker's `can_overload` is true) OR (the
worker is neither `is_overloaded` nor `is_in_error`) — without the spec's
extra requirement that `allow_overload` be false in the second disjunct. -/
theorem step_selection_condition (TRIES : Nat) (lb : LoadBalancer) (idx : Nat)
    (allow : Bool) (k : Nat) (w : Worker) (hw : lb.workers.get? idx = some w) :
    find_worker_step TRIES lb idx allow k = StepOut.selected idx ↔
      ((allow = true ∧ w.can_overload = true) ∨
        (w.is_overloaded = false ∧ w.is_in_error = false)) := by
  have hc : candidateOk lb idx allow = selectCond allow w := by
    unfold candidateOk; rw [hw]
  by_cases hsel : candidateOk lb idx allow = true
  · simp [find_worker_step, hsel]
    rw [hc] at hsel
    exact selectCond_eq_true_iff.mp hsel
  · rw [hc] at hsel
    cases k <;> simp [find_worker_step, hc, hsel] <;>
      (simp [selectCond] at hsel; tauto)

/-- Witness for C2's amended theorem at a concrete step. -/
theorem step_selection_condition_witness :
    find_worker_step 10 ⟨1, [⟨false, false, false⟩]⟩ 0 false 5 = StepOut.selected 0 ↔
      ((false = true ∧ false = true) ∨ (false = false ∧ false = false)) :=
  step_selection_condition 10 ⟨1, [⟨false, false, false⟩]⟩ 0 false 5
    ⟨false, false, false⟩ rfl

/-- Counterexample for C2 as stated: with `allow_overload = true`, a worker
with `can_overload = false` that is neither overloaded nor in error is
selected immediately by the scan step, yet this flag combination is not
covered by the spec's wording (`specSelectCond` is false on it). -/
theorem step_selection_condition_cex :
    find_worker_step 10 ⟨1, [⟨false, false, false⟩]⟩ 0 true 5 = StepOut.selected 0 ∧
    specSelectCond true ⟨false, false, false⟩ = false := by
  exact ⟨rfl, rfl⟩

/-- Claim C6, amended (corrected): under the reachable-cursor invariant
`current_index ≤ workers.length`, every candidate index produced by
`get_next_worker_idx` is at most `N = workers.length` (not strictly less
than `N`: the cursor wraps modulo `N + 1`, producing the phantom candidate
`N` once per lap), and the invariant is preserved. -/
theorem cursor_wrap_bound (lb : LoadBalancer)
    (h : lb.current_index ≤ lb.workers.length) :
    (get_next_worker_idx lb).1 ≤ lb.workers.length ∧
    (get_next_worker_idx lb).2.current_index ≤ lb.workers.length := by
  refine ⟨h, ?_⟩
  show (if lb.current_index = lb.workers.length then 0 else lb.current_index + 1) ≤
    lb.workers.length
  split <;> omega

/-- Witness for C6's amended theorem. -/
theorem cursor_wrap_bound_witness :
    (get_next_worker_idx ⟨2, [⟨false, false, false⟩, ⟨false, false, false⟩]⟩).1 ≤
      (⟨2, [⟨false, false, false⟩, ⟨false, false, false⟩]⟩ : LoadBalancer).workers.length ∧
    (get_next_worker_idx
        ⟨2, [⟨false, false, false⟩, ⟨false, false, false⟩]⟩).2.current_index ≤
      (⟨2, [⟨false, false, false⟩, ⟨false, false, false⟩]⟩ : LoadBalancer).workers.length :=
  cursor_wrap_bound ⟨2, [⟨false, false, false⟩, ⟨false, false, false⟩]⟩ (by decide)

/-- Counterexample for C6 as stated: in a one-worker registry the cursor
state `1` is reached from the initial state `0` by one advance, and from it
`get_next_worker_idx` produces the candidate index `1`, which is not
strictly less than the registry size `1`. -/
theorem cursor_wrap_bound_cex :
    (get_next_worker_idx ⟨0, [⟨false, false, false⟩]⟩).2.current_index = 1 ∧
    (get_next_worker_idx ⟨1, [⟨false, false, false⟩]⟩).1 = 1 ∧
    ¬((get_next_worker_idx ⟨1, [⟨false, false, false⟩]⟩).1 <
        (⟨1, [⟨false, false, false⟩]⟩ : LoadBalancer).workers.length) := by
  exact ⟨rfl, rfl, by decide⟩

/-- Claim C7 (confirmed): on a valid heartbeat (tag byte `0x07`, utilization
read successfully), the monitor stores `is_overloaded = true` exactly when
the utilization strictly exceeds `max_utilization`, stores `false` exactly
when it is equal or below, and the stored value does not depend on the
previous flag value, so the flag can toggle back to healthy. -/
theorem heartbeat_threshold (m u : ℚ) (st : MonitorState) :
    ((monitor_step m st 7 (some u)).is_overloaded = true ↔ m < u) ∧
    ((monitor_step m st 7 (some u)).is_overloaded = false ↔ u ≤ m) ∧
    monitor_step m st 7 (some u) =
      monitor_step m ⟨!st.is_overloaded, st.is_in_error⟩ 7 (some u) := by
  refine ⟨?_, ?_, rfl⟩ <;> simp [monitor_step]

/-- Claim C8 (confirmed): for a worker with `can_overload = false` and
`is_overloaded = true`, `open_connection` fails with the overload I/O error
without invoking `Stream::new` (third component `false`) and without
touching the worker's flags, whatever the network would have answered. -/
theorem overload_short_circuit (w : Worker) (s : Except ModelError SttStream)
    (hcan : w.can_overload = false) (hover : w.is_overloaded = true) :
    open_connection w s = (Except.error (ModelError.Io "remote is overloaded"), w, false) := by
  simp [open_connection, hcan, hover]

/-- Witness for C8. -/
theorem overload_short_circuit_witness :
    open_connection ⟨false, true, false⟩ (Except.ok ()) =
      (Except.error (ModelError.Io "remote is overloaded"), ⟨false, true, false⟩, false) :=
  overload_short_circuit ⟨false, true, false⟩ (Except.ok ()) rfl rfl

/-- Claim C9, amended (corrected): on every `open_connection` call that is
not rejected by the overload short-circuit (i.e. the worker tolerates
overload or is not flagged overloaded), the worker's `is_in_error` flag
afterwards equals whether the call failed.  The short-circuited calls leave
the flag untouched. -/
theorem error_flag_after_open (w : Worker) (s : Except ModelError SttStream)
    (h : w.can_overload = true ∨ w.is_overloaded = false) :
    (open_connection w s).2.1.is_in_error = isErrB (open_connection w s).1 := by
  rcases h with h | h <;> simp [open_connection, h]

/-- Witness for C9's amended theorem: a failing network attempt on an
overload-tolerant worker sets the error flag. -/
theorem error_flag_after_open_witness :
    (open_connection ⟨true, true, false⟩ (Except.error (ModelError.Io "x"))).2.1.is_in_error =
      isErrB (open_connection ⟨true, true, false⟩ (Except.error (ModelError.Io "x"))).1 :=
  error_flag_after_open ⟨true, true, false⟩ (Except.error (ModelError.Io "x")) (Or.inl rfl)

/-- Counterexample for C9 as stated: an overloaded, non-tolerant worker with
`is_in_error = false` completes an `open_connection` call with a failure,
yet its `is_in_error` flag stays `false` (the short-circuit returns before
the `is_in_error.store` line). -/
theorem error_flag_after_open_cex :
    isErrB (open_connection ⟨false, true, false⟩ (Except.ok ())).1 = true ∧
    (open_connection ⟨false, true, false⟩ (Except.ok ())).2.1.is_in_error = false := by
  exact ⟨rfl, rfl⟩

/-- Claim C10 (confirmed): whenever `find_worker` returns `Ok idx`, a worker
is registered at `idx`, so the `.expect("worker should exist")` lookup in
`get_stream` cannot panic after a successful selection. -/
theorem selected_worker_exists (TRIES : Nat) (lb : LoadBalancer) (i : Nat)
    (h : (find_worker TRIES lb).1 = Except.ok i) :
    ∃ w, lb.workers.get? i = some w := by
  obtain ⟨w, hw, -⟩ := find_worker_ok_inv h
  exact ⟨w, hw⟩

/-- Witness for C10. -/
theorem selected_worker_exists_witness :
    ∃ w, (⟨0, [⟨false, false, false⟩]⟩ : LoadBalancer).workers.get? 0 = some w :=
  selected_worker_exists 1 ⟨0, [⟨false, false, false⟩]⟩ 0 rfl

/-- Claim C4, amended (corrected): over a registry (of any size, including
empty) in which every worker has `can_overload = false` and is unhealthy
(overloaded or in error), `find_worker` always terminates with the
`NoAvailableServers` error, after examining exactly
`NUM_STT_SERVICE_TRIES + 1` candidates — one more than the claim's "at most
`NUM_STT_SERVICE_TRIES` scan steps". -/
theorem retry_budget_termination (TRIES : Nat) (lb : LoadBalancer)
    (h : ∀ w ∈ lb.workers, w.can_overload = false ∧
      (w.is_overloaded = true ∨ w.is_in_error = true)) :
    (find_worker TRIES lb).1 = Except.error ModelError.NoAvailableServers ∧
    find_worker_count TRIES lb = TRIES + 1 := by
  refine ⟨fwLoop_all_bad TRIES TRIES _ _ _ h, ?_⟩
  exact fwLoopCount_all_bad TRIES TRIES (get_next_worker_idx lb).2
    (get_next_worker_idx lb).1 false h

/-- Witness for C4's amended theorem, on a singleton registry. -/
theorem retry_budget_termination_witness :
    (find_worker 2 ⟨0, [⟨false, true, false⟩]⟩).1 =
      Except.error ModelError.NoAvailableServers ∧
    find_worker_count 2 ⟨0, [⟨false, true, false⟩]⟩ = 2 + 1 :=
  retry_budget_termination 2 ⟨0, [⟨false, true, false⟩]⟩ (by decide)

/-- Counterexample for C4 as stated: with a retry budget of `2` and a single
overloaded, non-tolerant worker, the scan terminates in failure but only
after `3` candidate examinations, exceeding the budget of `2` scan steps. -/
theorem retry_budget_termination_cex :
    (find_worker 2 ⟨0, [⟨false, true, false⟩]⟩).1 =
      Except.error ModelError.NoAvailableServers ∧
    find_worker_count 2 ⟨0, [⟨false, true, false⟩]⟩ = 3 ∧
    ¬(find_worker_count 2 ⟨0, [⟨false, true, false⟩]⟩ ≤ 2) := by
  refine ⟨rfl, rfl, by decide⟩

/-! ### Degradation to overload-tolerant workers (C5) -/

theorem candidateOk_false_of_allover {lb : LoadBalancer} {idx : Nat}
    (h : ∀ w ∈ lb.workers, w.is_overloaded = true) :
    candidateOk lb idx false = false := by
  unfold candidateOk
  cases hg : lb.workers.get? idx with
  | none => rfl
  | some w => simp [selectCond, h w (List.get?_mem hg)]

theorem fwLoop_select {TRIES : Nat} {lb : LoadBalancer} {idx : Nat} {allow : Bool}
    {k : Nat} (h : candidateOk lb idx allow = true) :
    fwLoop TRIES lb idx allow k = (Except.ok idx, lb) := by
  cases k <;> simp [fwLoop, h]

/-- Iterating the cursor successor from a state `≤ N` walks the cycle
`0, 1, …, N, 0, …` of length `N + 1`. -/
theorem wrapSucc_iterate (N : Nat) :
    ∀ (d x : Nat), x ≤ N → (wrapSucc N)^[d] x = (x + d) % (N + 1) := by
  intro d
  induction d with
  | zero =>
    intro x hx
    simp [Nat.mod_eq_of_lt (by omega : x < N + 1)]
  | succ d ih =>
    intro x hx
    rw [Function.iterate_succ_apply, ih _ (wrapSucc_le hx)]
    have hstep : wrapSucc N x = (x + 1) % (N + 1) := by
      unfold wrapSucc
      split
      · rename_i hxx
        subst hxx
        exact (Nat.mod_self _).symm
      · rw [Nat.mod_eq_of_lt (by omega)]
    rw [hstep, Nat.mod_add_mod]
    congr 1
    omega

/-- From any cursor state the cycle reaches any registry slot within `N`
steps. -/
theorem wrapSucc_reach (N : Nat) (x i : Nat) (hx : x ≤ N) (hi : i ≤ N) :
    ∃ d ≤ N, (wrapSucc N)^[d] x = i := by
  refine ⟨(i + (N + 1) - x) % (N + 1), ?_, ?_⟩
  · have := @Nat.mod_lt (i + (N + 1) - x) (N + 1) (by omega)
    omega
  · rw [wrapSucc_iterate N _ _ hx]
    rw [Nat.add_comm x, Nat.mod_add_mod]
    have : i + (N + 1) - x + x = i + (N + 1) := by omega
    rw [this, Nat.add_mod_right, Nat.mod_eq_of_lt (by omega)]

/-- Once `allow_overload` is true, the scan succeeds within the remaining
budget provided it suffices to reach some `can_overload` worker. -/
theorem fwLoop_reach_ok (TRIES : Nat) :
    ∀ (d k : Nat) (lb : LoadBalancer) (idx i0 : Nat) (w0 : Worker),
      lb.workers.get? i0 = some w0 → w0.can_overload = true →
      idx ≤ lb.workers.length →
      lb.current_index = wrapSucc lb.workers.length idx →
      (wrapSucc lb.workers.length)^[d] idx = i0 → d ≤ k →
      ∃ j, (fwLoop TRIES lb idx true k).1 = Except.ok j := by
  intro d
  induction d with
  | zero =>
    intro k lb idx i0 w0 hw hcan hle hinv hit hd
    rw [Function.iterate_zero_apply] at hit
    subst hit
    have hc : candidateOk lb idx true = true := by
      unfold candidateOk; rw [hw]; simp [selectCond, hcan]
    exact ⟨idx, by rw [fwLoop_select hc]⟩
  | succ d ih =>
    intro k lb idx i0 w0 hw hcan hle hinv hit hd
    by_cases hc : candidateOk lb idx true = true
    · exact ⟨idx, by rw [fwLoop_select hc]⟩
    · cases k with
      | zero => omega
      | succ k' =>
        simp only [fwLoop, hc, if_false, Bool.false_eq_true, ite_self]
        have hidx' : (get_next_worker_idx lb).1 = wrapSucc lb.workers.length idx := hinv
        rw [Function.iterate_succ_apply] at hit
        refine ih k' (get_next_worker_idx lb).2 (get_next_worker_idx lb).1 i0 w0 hw hcan
          ?_ ?_ ?_ (by omega)
        · rw [hidx']; exact wrapSucc_le hle
        · show wrapSucc lb.workers.length lb.current_index =
            wrapSucc lb.workers.length (get_next_worker_idx lb).1
          rfl
        · show (wrapSucc lb.workers.length)^[d] (get_next_worker_idx lb).1 = i0
          rw [hidx']
          exact hit

/-- Before the `allow_overload` flip, an all-overloaded registry never
selects; with a budget of at least two laps the scan still ends in a
success once the flip has happened. -/
theorem fwLoop_preflip_ok (TRIES : Nat) :
    ∀ (k : Nat) (lb : LoadBalancer) (idx : Nat),
      (∀ w ∈ lb.workers, w.is_overloaded = true) →
      (∃ i0 w0, lb.workers.get? i0 = some w0 ∧ w0.can_overload = true) →
      idx ≤ lb.workers.length →
      lb.current_index = wrapSucc lb.workers.length idx →
      k ≤ TRIES → TRIES ≤ k + lb.workers.length + 1 →
      2 * lb.workers.length + 2 ≤ TRIES →
      ∃ j, (fwLoop TRIES lb idx false k).1 = Except.ok j := by
  intro k
  induction k with
  | zero =>
    intro lb idx hover hcanex hle hinv h1 h2 h3
    omega
  | succ k' ih =>
    intro lb idx hover hcanex hle hinv h1 h2 h3
    have hc : candidateOk lb idx false = false := candidateOk_false_of_allover hover
    simp only [fwLoop, hc, Bool.false_eq_true, if_false]
    have hidx' : (get_next_worker_idx lb).1 = wrapSucc lb.workers.length idx := hinv
    by_cases hflip : lb.workers.length < TRIES - (k' + 1)
    · rw [if_pos ⟨trivial, hflip⟩]
      obtain ⟨i0, w0, hw, hcan⟩ := hcanex
      have hi0 : i0 < lb.workers.length := by
        by_contra hcon
        rw [List.get?_eq_none.mpr (by omega)] at hw
        cases hw
      obtain ⟨d, hdN, hit⟩ := wrapSucc_reach lb.workers.length
        ((get_next_worker_idx lb).1) i0 (by rw [hidx']; exact wrapSucc_le hle) (by omega)
      refine fwLoop_reach_ok TRIES d k' (get_next_worker_idx lb).2
        (get_next_worker_idx lb).1 i0 w0 hw hcan
        (by rw [hidx']; exact wrapSucc_le hle) rfl hit (by omega)
    · rw [if_neg (by simp [hflip])]
      refine ih (get_next_worker_idx lb).2 (get_next_worker_idx lb).1 hover hcanex
        (by rw [hidx']; exact wrapSucc_le hle) rfl (by omega)
        (by show TRIES ≤ k' + lb.workers.length + 1; omega) h3

/-- Claim C5, amended (corrected): if every worker is overloaded then,
provided the retry budget covers two full cursor laps
(`TRIES ≥ 2·N + 2`, rather than merely "exceeds one full lap"),
`find_worker` returns the index of some `can_overload = true` worker
whenever one exists; and when no such worker exists it fails with
`NoAvailableServers` for every budget. -/
theorem graceful_degradation (TRIES : Nat) (lb : LoadBalancer)
    (hcur : lb.current_index ≤ lb.workers.length)
    (hover : ∀ w ∈ lb.workers, w.is_overloaded = true) :
    ((∃ w ∈ lb.workers, w.can_overload = true) →
      2 * lb.workers.length + 2 ≤ TRIES →
      ∃ i w, (find_worker TRIES lb).1 = Except.ok i ∧
        lb.workers.get? i = some w ∧ w.can_overload = true) ∧
    ((∀ w ∈ lb.workers, w.can_overload = false) →
      (find_worker TRIES lb).1 = Except.error ModelError.NoAvailableServers) := by
  constructor
  · rintro ⟨w0, hmem, hcan⟩ hbudget
    obtain ⟨i0, hi0⟩ := List.get?_of_mem hmem
    obtain ⟨j, hj⟩ := fwLoop_preflip_ok TRIES TRIES (get_next_worker_idx lb).2
      (get_next_worker_idx lb).1 hover ⟨i0, w0, hi0, hcan⟩ hcur rfl
      (le_refl TRIES) (by omega) hbudget
    obtain ⟨w, hw, hdisj⟩ := @find_worker_ok_inv TRIES lb j hj
    refine ⟨j, w, hj, hw, ?_⟩
    rcases hdisj with h | ⟨h2, _⟩
    · exact h
    · rw [hover w (List.get?_mem hw)] at h2; cases h2
  · intro hnone
    refine fwLoop_all_bad TRIES TRIES _ _ _ ?_
    intro w hmem
    exact ⟨hnone w hmem, Or.inl (hover w hmem)⟩

/-- Witness for C5's amended theorem: one overloaded, overload-tolerant
worker, budget `4 = 2·1 + 2`. -/
theorem graceful_degradation_witness :
    ∃ i w, (find_worker 4 ⟨0, [⟨true, true, false⟩]⟩).1 = Except.ok i ∧
      (⟨0, [⟨true, true, false⟩]⟩ : LoadBalancer).workers.get? i = some w ∧
      w.can_overload = true :=
  (graceful_degradation 4 ⟨0, [⟨true, true, false⟩]⟩ (by decide) (by decide)).1
    (by decide) (by decide)

/-- Counterexample for C5 as stated: two workers, both overloaded, worker 0
overload-tolerant, and a retry budget of `3`, which exceeds one full lap
(`3 > 2`); yet `find_worker` exhausts the budget before any candidate is
examined with `allow_overload = true` and fails instead of returning the
tolerant worker. -/
theorem graceful_degradation_cex :
    (find_worker 3 ⟨0, [⟨true, true, false⟩, ⟨false, true, false⟩]⟩).1 =
      Except.error ModelError.NoAvailableServers ∧
    (⟨0, [⟨true, true, false⟩, ⟨false, true, false⟩]⟩ : LoadBalancer).workers.length < 3 ∧
    (∃ w ∈ (⟨0, [⟨true, true, false⟩, ⟨false, true, false⟩]⟩ : LoadBalancer).workers,
      w.can_overload = true) ∧
    (∀ w ∈ (⟨0, [⟨true, true, false⟩, ⟨false, true, false⟩]⟩ : LoadBalancer).workers,
      w.is_overloaded = true) := by
  refine ⟨rfl, by decide, by decide, by decide⟩

/-! ### Round-robin fairness over healthy registries (C3) -/

/-- `get_next_worker_idx` on a literal state. -/
theorem get_next_mk (c : Nat) (ws : List Worker) :
    get_next_worker_idx ⟨c, ws⟩ = (c, ⟨wrapSucc ws.length c, ws⟩) := rfl

/-- In an all-healthy registry every real index is selectable at once. -/
theorem candidateOk_healthy (ws : List Worker) (c' i : Nat)
    (hh : ∀ w ∈ ws, w.is_overloaded = false ∧ w.is_in_error = false)
    (hi : i < ws.length) :
    candidateOk ⟨c', ws⟩ i false = true := by
  unfold candidateOk
  show (match ws.get? i with
    | some w => selectCond false w
    | none => false) = true
  rw [List.get?_eq_get hi]
  obtain ⟨h1, h2⟩ := hh (ws.get ⟨i, hi⟩) (ws.get_mem i hi)
  simp [selectCond]
  exact ⟨h1, h2⟩

/-- One `find_worker` call over an all-healthy registry returns the cursor
position (worker `0` for the phantom slot `N`) and advances the cursor one
worker further. -/
theorem find_worker_healthy (TRIES : Nat) (ws : List Worker) (c : Nat)
    (hh : ∀ w ∈ ws, w.is_overloaded = false ∧ w.is_in_error = false)
    (hc : c ≤ ws.length) (hN : 1 ≤ ws.length) (hT : 1 ≤ TRIES) :
    find_worker TRIES ⟨c, ws⟩ =
      (Except.ok (if c = ws.length then 0 else c),
        ⟨(if c = ws.length then 0 else c) + 1, ws⟩) := by
  by_cases hcN : c = ws.length
  · rw [if_pos hcN]
    cases TRIES with
    | zero => omega
    | succ T =>
      have hwrap : wrapSucc ws.length c = 0 := by unfold wrapSucc; rw [if_pos hcN]
      have hnone : candidateOk ⟨0, ws⟩ c false = false := by
        unfold candidateOk
        show (match ws.get? c with
          | some w => selectCond false w
          | none => false) = false
        rw [List.get?_eq_none.mpr (by omega)]
      show fwLoop (T + 1) (get_next_worker_idx ⟨c, ws⟩).2
        (get_next_worker_idx ⟨c, ws⟩).1 false (T + 1) = _
      rw [get_next_mk]
      show fwLoop (T + 1) ⟨wrapSucc ws.length c, ws⟩ c false (T + 1) = _
      rw [hwrap]
      have hw0 : wrapSucc ws.length 0 = 1 := by
        unfold wrapSucc; rw [if_neg (by omega)]
      simp only [fwLoop, hnone, Bool.false_eq_true, if_false, get_next_mk,
        Nat.sub_self, Nat.not_lt_zero, and_false, if_false]
      rw [hw0, fwLoop_select (candidateOk_healthy ws 1 0 hh (by omega))]
  · rw [if_neg hcN]
    show fwLoop TRIES (get_next_worker_idx ⟨c, ws⟩).2
      (get_next_worker_idx ⟨c, ws⟩).1 false TRIES = _
    rw [get_next_mk]
    show fwLoop TRIES ⟨wrapSucc ws.length c, ws⟩ c false TRIES = _
    rw [fwLoop_select (candidateOk_healthy ws _ c hh (by omega))]
    have hstep : wrapSucc ws.length c = c + 1 := by unfold wrapSucc; rw [if_neg hcN]
    rw [hstep]

/-- Over an all-healthy registry, `M` sequential calls return the indices
`s, s+1, …` cyclically modulo `N`, where `s` is the wrapped cursor
position. -/
theorem run_calls_healthy (TRIES : Nat) (ws : List Worker)
    (hh : ∀ w ∈ ws, w.is_overloaded = false ∧ w.is_in_error = false)
    (hN : 1 ≤ ws.length) (hT : 1 ≤ TRIES) :
    ∀ (M c : Nat), c ≤ ws.length →
      (run_calls TRIES M ⟨c, ws⟩).1 =
        (List.range M).map
          (fun j => Except.ok (((if c = ws.length then 0 else c) + j) % ws.length)) := by
  intro M
  induction M with
  | zero => intro c hc; simp [run_calls]
  | succ M ih =>
    intro c hc
    have hs : (if c = ws.length then 0 else c) < ws.length := by split <;> omega
    show ((find_worker TRIES ⟨c, ws⟩).1 ::
        (run_calls TRIES M (find_worker TRIES ⟨c, ws⟩).2).1, _).1 = _
    rw [find_worker_healthy TRIES ws c hh hc hN hT]
    show Except.ok (if c = ws.length then 0 else c) ::
        (run_calls TRIES M ⟨(if c = ws.length then 0 else c) + 1, ws⟩).1 = _
    set s := (if c = ws.length then 0 else c)
    rw [ih (s + 1) (by omega)]
    rw [List.range_succ_eq_map, List.map_cons, List.map_map]
    congr 1
    · rw [Nat.add_zero, Nat.mod_eq_of_lt hs]
    · apply List.map_congr_left
      intro j _
      simp only [Function.comp]
      congr 1
      have hshift : (if s + 1 = ws.length then 0 else s + 1) = (s + 1) % ws.length := by
        split
        · rename_i hx; rw [hx, Nat.mod_self]
        · rename_i hx; rw [Nat.mod_eq_of_lt (by omega)]
      rw [hshift, Nat.mod_add_mod]
      congr 1
      omega

/-- The number of `j < M` congruent to `r` modulo `N`. -/
theorem countP_range_mod (N r : Nat) (hN : 0 < N) (hr : r < N) :
    ∀ M, (List.range M).countP (fun j => decide (j % N = r)) =
      M / N + (if r < M % N then 1 else 0) := by
  intro M
  induction M with
  | zero => simp
  | succ M ih =>
    rw [List.range_succ, List.countP_append, ih]
    simp only [List.countP_cons, List.countP_nil, decide_eq_true_eq]
    have hdm := Nat.div_add_mod M N
    have hmlt : M % N < N := Nat.mod_lt _ hN
    by_cases hsplit : M % N + 1 = N
    · have hM1 : M + 1 = N * (M / N + 1) := by
        rw [Nat.mul_add, Nat.mul_one]
        omega
      rw [hM1, Nat.mul_mod_right, Nat.mul_div_cancel_left _ hN]
      split_ifs <;> omega
    · have hM1 : M + 1 = N * (M / N) + (M % N + 1) := by omega
      rw [hM1, Nat.mul_add_mod, Nat.mul_add_div hN,
        Nat.mod_eq_of_lt (show M % N + 1 < N by omega),
        Nat.div_eq_of_lt (show M % N + 1 < N by omega)]
      split_ifs <;> omega

/-- Shifting the congruence class: `(s + j) % N = i` holds exactly when
`j % N` is the distance from `s` to `i` around the cycle. -/
theorem mod_shift_iff (N s i : Nat) (hs : s < N) (hi : i < N) (j : Nat) :
    (s + j) % N = i ↔ j % N = (i + N - s) % N := by
  have hsub : s + (i + N - s) = i + N := by omega
  constructor
  · intro h
    have h1 : s + j ≡ s + (i + N - s) [MOD N] := by
      rw [hsub]
      show (s + j) % N = (i + N) % N
      rw [h, Nat.add_mod_right, Nat.mod_eq_of_lt hi]
    exact Nat.ModEq.add_left_cancel' s h1
  · intro h
    have h1 : s + j ≡ s + (i + N - s) [MOD N] := Nat.ModEq.add_left s h
    rw [hsub] at h1
    show (s + j) % N = i
    calc (s + j) % N = (i + N) % N := h1
      _ = i % N := Nat.add_mod_right i N
      _ = i := Nat.mod_eq_of_lt hi

/-- Ceiling division: when `M` is not a multiple of `N`,
`⌈M/N⌉ = ⌊M/N⌋ + 1`. -/
theorem ceil_div_eq (N M : Nat) (hN : 0 < N) (ht : 1 ≤ M % N) :
    (M + N - 1) / N = M / N + 1 := by
  have hmlt : M % N < N := Nat.mod_lt _ hN
  have hdm := Nat.div_add_mod M N
  have hrepr : M + N - 1 = N * (M / N + 1) + (M % N - 1) := by
    rw [Nat.mul_add, Nat.mul_one]
    omega
  rw [hrepr, Nat.mul_add_div hN, Nat.div_eq_of_lt (show M % N - 1 < N by omega)]

/-- Counting one index in the cyclic result list. -/
theorem count_round_robin (N s i : Nat) (hN : 0 < N) (hs : s < N) (hi : i < N)
    (M : Nat) :
    ((List.range M).map
        (fun j => (Except.ok ((s + j) % N) : Except ModelError Nat))).count
      (Except.ok i) =
    M / N + (if (i + N - s) % N < M % N then 1 else 0) := by
  rw [List.count_eq_countP, List.countP_map]
  have : ((fun x => x == (Except.ok i : Except ModelError Nat)) ∘
      fun j => (Except.ok ((s + j) % N) : Except ModelError Nat)) =
      fun j => decide (j % N = (i + N - s) % N) := by
    funext j
    rw [Bool.eq_iff_iff]
    simp only [Function.comp, beq_iff_eq, Except.ok.injEq, decide_eq_true_eq]
    exact mod_shift_iff N s i hs hi j
  rw [this]
  exact countP_range_mod N _ hN (Nat.mod_lt _ hN) M

/-- Claim C3 (confirmed): over a registry of `N ≥ 1` workers that are all
neither overloaded nor in error, `M` sequential non-concurrent calls to
`find_worker` (with any budget `≥ 1` and a reachable cursor) return worker
indices in cyclic round-robin order continuing from the cursor position
(`scanStart`), and each worker index is returned exactly `⌊M/N⌋` or
`⌈M/N⌉ = (M+N-1)/N` times. -/
theorem round_robin_fairness (TRIES M : Nat) (lb : LoadBalancer)
    (hh : ∀ w ∈ lb.workers, w.is_overloaded = false ∧ w.is_in_error = false)
    (hN : 1 ≤ lb.workers.length) (hT : 1 ≤ TRIES)
    (hc : lb.current_index ≤ lb.workers.length) :
    (run_calls TRIES M lb).1 =
      (List.range M).map
        (fun j => Except.ok ((scanStart lb + j) % lb.workers.length)) ∧
    ∀ i, i < lb.workers.length →
      ((run_calls TRIES M lb).1.count (Except.ok i) = M / lb.workers.length ∨
        (run_calls TRIES M lb).1.count (Except.ok i) =
          (M + lb.workers.length - 1) / lb.workers.length) := by
  obtain ⟨c, ws⟩ := lb
  dsimp only at hh hN hc ⊢
  have hmain := run_calls_healthy TRIES ws hh hN hT M c hc
  have hstart : scanStart ⟨c, ws⟩ = if c = ws.length then 0 else c := rfl
  constructor
  · rw [hmain, hstart]
  · intro i hi
    have hs : scanStart ⟨c, ws⟩ < ws.length := by rw [hstart]; split <;> omega
    rw [hmain, ← hstart]
    rw [count_round_robin ws.length (scanStart ⟨c, ws⟩) i (by omega) hs hi M]
    by_cases hcase : (i + ws.length - scanStart ⟨c, ws⟩) % ws.length < M % ws.length
    · rw [if_pos hcase]
      right
      rw [ceil_div_eq ws.length M (by omega) (by omega)]
    · rw [if_neg hcase]
      left
      omega

/-- Witness for C3: three healthy workers, budget `1`, five calls starting
at cursor `2`: the results are `2, 0, 1, 2, 0` and each index is hit
`⌊5/3⌋ = 1` or `⌈5/3⌉ = 2` times. -/
theorem round_robin_fairness_witness :
    (run_calls 1 5 ⟨2, [⟨false, false, false⟩, ⟨false, false, false⟩,
        ⟨false, false, false⟩]⟩).1 =
      (List.range 5).map
        (fun j => Except.ok ((scanStart ⟨2, [⟨false, false, false⟩,
          ⟨false, false, false⟩, ⟨false, false, false⟩]⟩ + j) %
          (⟨2, [⟨false, false, false⟩, ⟨false, false, false⟩,
            ⟨false, false, false⟩]⟩ : LoadBalancer).workers.length)) ∧
    ∀ i, i < (⟨2, [⟨false, false, false⟩, ⟨false, false, false⟩,
        ⟨false, false, false⟩]⟩ : LoadBalancer).workers.length →
      ((run_calls 1 5 ⟨2, [⟨false, false, false⟩, ⟨false, false, false⟩,
          ⟨false, false, false⟩]⟩).1.count (Except.ok i) = 5 / 3 ∨
        (run_calls 1 5 ⟨2, [⟨false, false, false⟩, ⟨false, false, false⟩,
          ⟨false, false, false⟩]⟩).1.count (Except.ok i) = (5 + 3 - 1) / 3) :=
  round_robin_fairness 1 5 ⟨2, [⟨false, false, false⟩, ⟨false, false, false⟩,
    ⟨false, false, false⟩]⟩ (by decide) (by decide) (by decide) (by decide)

end Scripty
